import Mathlib

/-!
Branch row formatting and controller attachment of lazygit.

A shallow embedding of

* `pkg/gui/presentation/branches.go`: the functions that turn a branch into
  the styled columns of one row of the branches list;
* `pkg/gui/controllers.go`: the order in which `resetControllers` builds
  controllers and attaches them to contexts.

Go strings are Lean strings, Go slices are Lean lists.  The packages `style`,
`theme` and `models` are not part of the embedded files: the text styles and
the two `Branch` methods that the code calls are parameters of the embedding.
-/

namespace Lazygit

/-! ## Data model -/

/-- Pull request attached to a branch: the two fields that `branches.go`
reads, `b.PR.State` and `b.PR.Number`. -/
structure PullRequest where
  State : String
  Number : Int
  deriving DecidableEq, Repr

/-- Branch record of package `models`, with the fields that `branches.go`
reads.  The Go field `PR` is a pointer that may be nil, here an `Option`. -/
structure Branch where
  Name : String
  DisplayName : String
  Recency : String
  Pushables : String
  Pullables : String
  UpstreamName : String
  PR : Option PullRequest
  deriving DecidableEq, Repr

/-- The two methods of `*models.Branch` that `branches.go` calls.  Their
bodies live in package `models`, so they are parameters here. -/
structure BranchMethods where
  IsTrackingRemote : Branch → Bool
  MatchesUpstream : Branch → Bool

/-- The text styles that `branches.go` uses: the fixed colours of package
`style`, the two configurable colours of package `theme`, and the method
`TextStyle.Sprint` that renders a text in a style. -/
structure Style (TextStyle : Type) where
  FgGreen : TextStyle
  FgYellow : TextStyle
  FgRed : TextStyle
  FgCyan : TextStyle
  FgMagenta : TextStyle
  DefaultTextColor : TextStyle
  DiffTerminalColor : TextStyle
  Sprint : TextStyle → String → String

/-! ## Library functions used by the code -/

/-- Go `strings.Split(s, sep)` for a separator of one character, on the
characters of `s`: the pieces of `s` between occurrences of `sep`.  The
result is never empty; a text without `sep` gives the one piece `s`. -/
def Split (sep : Char) : List Char → List (List Char)
  | [] => [[]]
  | c :: cs =>
    if c = sep then [] :: Split sep cs
    else
      match Split sep cs with
      | [] => [[c]]
      | seg :: rest => (c :: seg) :: rest

/-- Go `strconv.Itoa`: the decimal text of an integer, with a leading minus
sign for a negative one. -/
def Itoa (n : Int) : String :=
  match n with
  | Int.ofNat m => Nat.repr m
  | Int.negSucc m => "-" ++ Nat.repr (m + 1)

/-! ## `pkg/gui/presentation/branches.go` -/

/-- Go function `BranchStatus`: `fmt.Sprintf("↑%s↓%s", branch.Pushables, branch.Pullables)`. -/
def BranchStatus (branch : Branch) : String :=
  "↑" ++ branch.Pushables ++ "↓" ++ branch.Pullables

/-- Go function `ColoredBranchStatus`: the branch status rendered in one colour. -/
def ColoredBranchStatus {τ : Type} (st : Style τ) (m : BranchMethods) (branch : Branch) : String :=
  let colour :=
    if m.MatchesUpstream branch then st.FgGreen
    else if !m.IsTrackingRemote branch then st.FgRed
    else st.FgYellow
  st.Sprint colour (BranchStatus branch)

/-- Go function `GetBranchTextStyle`: the colour of a branch name, from
`strings.Split(name, "/")[0]`. -/
def GetBranchTextStyle {τ : Type} (st : Style τ) (name : String) : τ :=
  let branchType := String.mk ((Split '/' name.data).headD [])
  if branchType = "feature" then st.FgGreen
  else if branchType = "bugfix" then st.FgYellow
  else if branchType = "hotfix" then st.FgRed
  else st.DefaultTextColor

/-- Go function `getBranchDisplayStrings`: the columns of the row of one branch. -/
def getBranchDisplayStrings {τ : Type} (st : Style τ) (m : BranchMethods) (b : Branch)
    (fullDescription diffed showGithub : Bool) : List String :=
  let displayName := if b.DisplayName ≠ "" then b.DisplayName else b.Name
  let nameTextStyle := if diffed then st.DiffTerminalColor else GetBranchTextStyle st b.Name
  let coloredName := st.Sprint nameTextStyle displayName
  let coloredName :=
    if m.IsTrackingRemote b then coloredName ++ " " ++ ColoredBranchStatus st m b
    else coloredName
  let recencyColor := if b.Recency = "  *" then st.FgGreen else st.FgCyan
  let res := [st.Sprint recencyColor b.Recency]
  let res :=
    if showGithub then
      match b.PR with
      | some pr =>
        let colour :=
          if pr.State = "OPEN" then st.FgGreen
          else if pr.State = "CLOSED" then st.FgRed
          else st.FgMagenta
        res ++ [st.Sprint colour ("#" ++ Itoa pr.Number)]
      | none => res ++ [""]
    else res
  if fullDescription then res ++ [coloredName, st.Sprint st.FgYellow b.UpstreamName]
  else res ++ [coloredName]

/-- Go function `GetBranchListDisplayStrings`: a slice of `len(branches)` rows is
allocated, then row `i` is written for every index `i` of `branches`. -/
def GetBranchListDisplayStrings {τ : Type} (st : Style τ) (m : BranchMethods)
    (branches : List Branch) (fullDescription : Bool) (diffName : String)
    (showGithub : Bool) : List (List String) :=
  (List.range branches.length).foldl
    (fun lines i =>
      match branches.get? i with
      | some bi =>
        let diffed := decide (bi.Name = diffName)
        lines.set i (getBranchDisplayStrings st m bi fullDescription diffed showGithub)
      | none => lines)
    (List.replicate branches.length [])

/-! ## `pkg/gui/controllers.go` -/

/-- The contexts of `gui.State.Contexts` that `resetControllers` names, and
`Other` for any further context that `gui.getListContexts()` may return. -/
inductive Context
  | Branches
  | RemoteBranches
  | Tags
  | ReflogCommits
  | LocalCommits
  | SubCommits
  | Stash
  | Files
  | Submodules
  | CommitFiles
  | Remotes
  | Menu
  | CommitMessage
  | Global
  | Other (key : String)
  deriving DecidableEq, Repr

/-- The functions of package `controllers` through which `resetControllers`
obtains a controller; `ListControllerFactoryCreate` is
`listControllerFactory.Create`. -/
inductive Constructor
  | NewSyncController
  | NewSubmodulesController
  | NewBisectController
  | NewCommitMessageController
  | NewRemoteBranchesController
  | NewMenuController
  | NewLocalCommitsController
  | NewTagsController
  | NewFilesController
  | NewRemotesController
  | NewUndoController
  | NewGlobalController
  | NewBranchesController
  | NewGitFlowController
  | NewFilesRemoveController
  | NewStashController
  | NewCommitFilesController
  | NewSwitchToSubCommitsController
  | NewSwitchToDiffFilesController
  | NewBasicCommitsController
  | ListControllerFactoryCreate
  deriving DecidableEq, Repr

/-- A controller instance: the function call that built it, the context
passed to that call if it takes one, and the position of the call among the
controller constructions of the run, which tells instances apart. -/
structure Controller where
  ctor : Constructor
  context : Option Context
  serial : Nat
  deriving DecidableEq, Repr

/-- The effect of a run of `resetControllers` so far: the controllers built,
in order of construction, and the attachments made, in order. -/
structure Setup where
  constructed : List Controller
  attachments : List (Context × Controller)
  deriving DecidableEq, Repr

/-- One call of a controller constructor: a new instance is built and
recorded. -/
def Setup.construct (s : Setup) (k : Constructor) (context : Option Context) :
    Controller × Setup :=
  let c : Controller := { ctor := k, context := context, serial := s.constructed.length }
  (c, { s with constructed := s.constructed ++ [c] })

/-- Modelled from the spec: `controllers.AttachControllers`, whose body is in
package `controllers`.  `Attach(context, controllers...)` appends the given
controllers, in argument order, to the controllers of the context; here each
becomes one entry of the sequence of attachments. -/
def Setup.AttachControllers (s : Setup) (context : Context) (cs : List Controller) : Setup :=
  { s with attachments := s.attachments ++ cs.map (fun c => (context, c)) }

/-- Go method `resetControllers`: the controllers it builds and the attachments it
makes, in source order.  The helpers and the custom commands client that it
also builds are not controllers and are left out; `listContexts` is the
result of `gui.getListContexts()`. -/
def resetControllers (listContexts : List Context) : Setup :=
  let s : Setup := { constructed := [], attachments := [] }
  let (syncController, s) := s.construct .NewSyncController none
  let (submodulesController, s) := s.construct .NewSubmodulesController none
  let (bisectController, s) := s.construct .NewBisectController none
  let (commitMessageController, s) := s.construct .NewCommitMessageController none
  let (remoteBranchesController, s) := s.construct .NewRemoteBranchesController none
  let (menuController, s) := s.construct .NewMenuController none
  let (localCommitsController, s) := s.construct .NewLocalCommitsController none
  let (tagsController, s) := s.construct .NewTagsController none
  let (filesController, s) := s.construct .NewFilesController none
  let (remotesController, s) := s.construct .NewRemotesController none
  let (undoController, s) := s.construct .NewUndoController none
  let (globalController, s) := s.construct .NewGlobalController none
  let (branchesController, s) := s.construct .NewBranchesController none
  let (gitFlowController, s) := s.construct .NewGitFlowController none
  let (filesRemoveController, s) := s.construct .NewFilesRemoveController none
  let (stashController, s) := s.construct .NewStashController none
  let (commitFilesController, s) := s.construct .NewCommitFilesController none
  let s :=
    [Context.Branches, Context.RemoteBranches, Context.Tags, Context.ReflogCommits].foldl
      (fun s context =>
        let (c, s) := s.construct .NewSwitchToSubCommitsController (some context)
        s.AttachControllers context [c])
      s
  let s :=
    [Context.LocalCommits, Context.SubCommits, Context.Stash].foldl
      (fun s context =>
        let (c, s) := s.construct .NewSwitchToDiffFilesController (some context)
        s.AttachControllers context [c])
      s
  let s :=
    [Context.LocalCommits, Context.ReflogCommits, Context.SubCommits].foldl
      (fun s context =>
        let (c, s) := s.construct .NewBasicCommitsController (some context)
        s.AttachControllers context [c])
      s
  let s := s.AttachControllers .Files [filesController, filesRemoveController]
  let s := s.AttachControllers .Tags [tagsController]
  let s := s.AttachControllers .Submodules [submodulesController]
  let s := s.AttachControllers .LocalCommits [localCommitsController, bisectController]
  let s := s.AttachControllers .Branches [branchesController, gitFlowController]
  let s := s.AttachControllers .LocalCommits [localCommitsController, bisectController]
  let s := s.AttachControllers .CommitFiles [commitFilesController]
  let s := s.AttachControllers .Remotes [remotesController]
  let s := s.AttachControllers .Stash [stashController]
  let s := s.AttachControllers .Menu [menuController]
  let s := s.AttachControllers .CommitMessage [commitMessageController]
  let s := s.AttachControllers .RemoteBranches [remoteBranchesController]
  let s := s.AttachControllers .Global [syncController, undoController, globalController]
  listContexts.foldl
    (fun s context =>
      let (c, s) := s.construct .ListControllerFactoryCreate (some context)
      s.AttachControllers context [c])
    s

/-- The constructors of the capability-qualified generic controllers. -/
def Constructor.isGeneric (k : Constructor) : Bool :=
  k = .NewSwitchToSubCommitsController || k = .NewSwitchToDiffFilesController
    || k = .NewBasicCommitsController

/-- The List Controller Factory. -/
def Constructor.isFactory (k : Constructor) : Bool :=
  k = .ListControllerFactoryCreate

/-- The constructors of the domain controllers: all the others. -/
def Constructor.isDomain (k : Constructor) : Bool :=
  !k.isGeneric && !k.isFactory

/-- One possible result of `gui.getListContexts()`, used to evaluate
`resetControllers`. -/
def sampleListContexts : List Context :=
  [.Menu, .Files, .Branches, .Remotes, .RemoteBranches, .Tags, .LocalCommits, .ReflogCommits,
   .SubCommits, .Stash, .CommitFiles, .Submodules, .Other "suggestions"]

/-- The place of a constructor in the order that the specification gives:
generic controllers first, then domain controllers, then the list
controllers of the factory. -/
def Constructor.phase (k : Constructor) : Nat :=
  if k.isGeneric then 0 else if k.isFactory then 2 else 1

/-- The body of the last loop of `resetControllers`: a list controller is
created for the context and attached to it. -/
def attachListController (s : Setup) (context : Context) : Setup :=
  let (c, s) := s.construct .ListControllerFactoryCreate (some context)
  s.AttachControllers context [c]

/-- The attachments that the last loop of `resetControllers` makes for the
given list contexts, when `start` controllers were built before it. -/
def listAttachments (start : Nat) : List Context → List (Context × Controller)
  | [] => []
  | context :: rest =>
    (context, { ctor := .ListControllerFactoryCreate, context := some context, serial := start })
      :: listAttachments (start + 1) rest

/-! ## A concrete terminal style, for evaluating the functions -/

/-- A style environment in which a text style is the SGR colour code of an
ANSI terminal and `Sprint` wraps the text in the escape sequences. -/
def ansiStyle : Style String where
  FgGreen := "32"
  FgYellow := "33"
  FgRed := "31"
  FgCyan := "36"
  FgMagenta := "35"
  DefaultTextColor := "39"
  DiffTerminalColor := "35"
  Sprint := fun code text => "\x1b[" ++ code ++ "m" ++ text ++ "\x1b[0m"

/-- One possible pair of branch methods, reading the two counts: tracking
unless a count is missing or is `?`, matching when both counts are `0`. -/
def countMethods : BranchMethods where
  IsTrackingRemote := fun b => decide (b.Pushables ≠ "" ∧ b.Pullables ≠ "" ∧ b.Pushables ≠ "?")
  MatchesUpstream := fun b => decide (b.Pushables = "0" ∧ b.Pullables = "0")

/-- Another possible pair of branch methods: every branch tracks a remote
and matches it. -/
def syncedMethods : BranchMethods where
  IsTrackingRemote := fun _ => true
  MatchesUpstream := fun _ => true

/-- A branch with the given name and every other field empty. -/
def branchNamed (name : String) : Branch :=
  { Name := name, DisplayName := "", Recency := "", Pushables := "", Pullables := "",
    UpstreamName := "", PR := none }

/-! ## The wording of the specification, as definitions -/

/-- The text of a name before its first `/` (the whole name when it has no
`/`): the "first path segment" of the specification. -/
def textBeforeFirstSlash (name : String) : String :=
  String.mk (name.data.takeWhile (fun c => c != '/'))

/-- The text shown for a branch: its display name when that is set, else
its name. -/
def displayText (b : Branch) : String :=
  if b.DisplayName = "" then b.Name else b.DisplayName

/-- The colour rule of the specification for a branch name. -/
def segmentStyle {τ : Type} (st : Style τ) (name : String) : τ :=
  if textBeforeFirstSlash name = "feature" then st.FgGreen
  else if textBeforeFirstSlash name = "bugfix" then st.FgYellow
  else if textBeforeFirstSlash name = "hotfix" then st.FgRed
  else st.DefaultTextColor

/-- The tracking-status suffix of the name column: a space and the
coloured status for a branch that tracks a remote, nothing otherwise. -/
def trackingSuffix {τ : Type} (st : Style τ) (m : BranchMethods) (b : Branch) : String :=
  if m.IsTrackingRemote b then " " ++ ColoredBranchStatus st m b else ""

/-- The name column of a row as the specification describes it: the
coloured name, followed for a tracking branch by a space and the coloured
status. -/
def nameColumn {τ : Type} (st : Style τ) (m : BranchMethods) (b : Branch) (diffed : Bool) :
    String :=
  st.Sprint (if diffed then st.DiffTerminalColor else segmentStyle st b.Name) (displayText b)
    ++ trackingSuffix st m b

/-- The pull-request column of a row as the specification describes it. -/
def prColumn {τ : Type} (st : Style τ) (b : Branch) : String :=
  match b.PR with
  | some pr =>
    st.Sprint
      (if pr.State = "OPEN" then st.FgGreen
       else if pr.State = "CLOSED" then st.FgRed
       else st.FgMagenta)
      ("#" ++ Itoa pr.Number)
  | none => ""

/-- The recency column of a row, as the code colours it. -/
def recencyColumn {τ : Type} (st : Style τ) (b : Branch) : String :=
  st.Sprint (if b.Recency = "  *" then st.FgGreen else st.FgCyan) b.Recency

/-! ## Lemmas -/

theorem Split_ne_nil (sep : Char) (cs : List Char) : Split sep cs ≠ [] := by
  cases cs with
  | nil => simp [Split]
  | cons c cs =>
    unfold Split
    split
    · simp
    · split <;> simp

theorem Split_headD (sep : Char) (cs : List Char) :
    (Split sep cs).headD [] = cs.takeWhile (fun c => c != sep) := by
  induction cs with
  | nil => simp [Split]
  | cons c cs ih =>
    by_cases h : c = sep
    · simp [Split, h]
    · cases hs : Split sep cs with
      | nil => exact absurd hs (Split_ne_nil sep cs)
      | cons seg rest => simp [hs] at ih; simp [Split, h, hs, ← ih]

theorem GetBranchTextStyle_eq_segmentStyle {τ : Type} (st : Style τ) (name : String) :
    GetBranchTextStyle st name = segmentStyle st name := by
  simp only [GetBranchTextStyle, segmentStyle, textBeforeFirstSlash, Split_headD]

theorem row_eq_columns {τ : Type} (st : Style τ) (m : BranchMethods) (b : Branch)
    (fullDescription diffed showGithub : Bool) :
    getBranchDisplayStrings st m b fullDescription diffed showGithub
      = [recencyColumn st b]
        ++ (if showGithub then [prColumn st b] else [])
        ++ [nameColumn st m b diffed]
        ++ (if fullDescription then [st.Sprint st.FgYellow b.UpstreamName] else []) := by
  have hn : (if b.DisplayName ≠ "" then b.DisplayName else b.Name) = displayText b := by
    unfold displayText; by_cases h : b.DisplayName = "" <;> simp [h]
  simp only [getBranchDisplayStrings, hn, GetBranchTextStyle_eq_segmentStyle, nameColumn,
    recencyColumn, prColumn, trackingSuffix]
  cases showGithub <;> cases fullDescription <;> cases m.IsTrackingRemote b <;>
    cases b.PR <;> simp [String.append_assoc]

theorem nameColumn_at {τ : Type} (st : Style τ) (m : BranchMethods) (b : Branch)
    (fullDescription diffed showGithub : Bool) :
    (getBranchDisplayStrings st m b fullDescription diffed showGithub).get?
        (if showGithub then 2 else 1) = some (nameColumn st m b diffed) := by
  rw [row_eq_columns]
  cases showGithub <;> cases fullDescription <;> simp

theorem foldl_set_rows {α β : Type} (g : α → β) (d : β) (bs : List α)
    (step : List β → Nat → List β)
    (hstep : ∀ (lines : List β) (i : Nat) (h : i < bs.length), step lines i = lines.set i (g bs[i]))
    (k : Nat) (hk : k ≤ bs.length) :
    (List.range k).foldl step (List.replicate bs.length d)
      = (bs.take k).map g ++ List.replicate (bs.length - k) d := by
  induction k with
  | zero => simp
  | succ k ih =>
    have hlt : k < bs.length := hk
    rw [List.range_succ, List.foldl_append, ih (Nat.le_of_lt hlt)]
    have hlen : (List.map g (List.take k bs)).length = k := by
      simp [Nat.min_eq_left (Nat.le_of_lt hlt)]
    have hrep : List.replicate (bs.length - k) d = d :: List.replicate (bs.length - (k + 1)) d := by
      have : bs.length - k = (bs.length - (k + 1)) + 1 := by omega
      rw [this, List.replicate_succ]
    simp only [List.foldl_cons, List.foldl_nil, hstep _ k hlt]
    rw [List.set_append, hlen, if_neg (Nat.lt_irrefl k), Nat.sub_self, hrep, List.set_cons_zero]
    rw [List.take_succ, List.getElem?_eq_getElem hlt]
    simp only [Option.toList, List.map_append, List.map_cons, List.map_nil, List.append_assoc,
      List.singleton_append]

theorem GetBranchListDisplayStrings_eq_map {τ : Type} (st : Style τ) (m : BranchMethods)
    (branches : List Branch) (fullDescription : Bool) (diffName : String) (showGithub : Bool) :
    GetBranchListDisplayStrings st m branches fullDescription diffName showGithub
      = branches.map (fun b =>
          getBranchDisplayStrings st m b fullDescription (decide (b.Name = diffName)) showGithub) := by
  unfold GetBranchListDisplayStrings
  have h := foldl_set_rows
    (fun b => getBranchDisplayStrings st m b fullDescription (decide (b.Name = diffName)) showGithub)
    [] branches _
    (fun lines i hi => by
      show (match branches.get? i with
        | some bi =>
          lines.set i (getBranchDisplayStrings st m bi fullDescription
            (decide (bi.Name = diffName)) showGithub)
        | none => lines) = _
      rw [List.get?_eq_getElem?, List.getElem?_eq_getElem hi])
    branches.length (Nat.le_refl _)
  rw [List.take_length, Nat.sub_self, List.replicate_zero, List.append_nil] at h
  exact h

/-! ## Lemmas about `resetControllers` -/

theorem resetControllers_eq_foldl (listContexts : List Context) :
    resetControllers listContexts
      = listContexts.foldl attachListController (resetControllers []) := rfl

theorem foldl_attachListController (listContexts : List Context) (s : Setup) :
    (listContexts.foldl attachListController s).attachments
        = s.attachments ++ listAttachments s.constructed.length listContexts
    ∧ (listContexts.foldl attachListController s).constructed
        = s.constructed ++ (listAttachments s.constructed.length listContexts).map Prod.snd := by
  induction listContexts generalizing s with
  | nil => simp [listAttachments]
  | cons context rest ih =>
    have h := ih (attachListController s context)
    simp only [List.foldl_cons]
    refine ⟨?_, ?_⟩
    · rw [h.1]
      simp [attachListController, Setup.construct, Setup.AttachControllers, listAttachments]
    · rw [h.2]
      simp [attachListController, Setup.construct, Setup.AttachControllers, listAttachments]

theorem attachments_eq (listContexts : List Context) :
    (resetControllers listContexts).attachments
      = (resetControllers []).attachments ++ listAttachments 27 listContexts := by
  rw [resetControllers_eq_foldl, (foldl_attachListController listContexts _).1]
  rfl

theorem constructed_eq (listContexts : List Context) :
    (resetControllers listContexts).constructed
      = (resetControllers []).constructed ++ (listAttachments 27 listContexts).map Prod.snd := by
  rw [resetControllers_eq_foldl, (foldl_attachListController listContexts _).2]
  rfl

theorem listAttachments_mem (start : Nat) (listContexts : List Context)
    (a : Context × Controller) (h : a ∈ listAttachments start listContexts) :
    a.2.ctor = .ListControllerFactoryCreate ∧ a.2.context = some a.1 ∧ a.1 ∈ listContexts := by
  induction listContexts generalizing start with
  | nil => simp [listAttachments] at h
  | cons context rest ih =>
    simp only [listAttachments, List.mem_cons] at h
    rcases h with h | h
    · subst h; simp
    · have := ih (start + 1) h
      exact ⟨this.1, this.2.1, List.mem_cons_of_mem _ this.2.2⟩

theorem listAttachments_exists (start : Nat) (listContexts : List Context) (context : Context)
    (h : context ∈ listContexts) :
    ∃ c, (context, c) ∈ listAttachments start listContexts := by
  induction listContexts generalizing start with
  | nil => simp at h
  | cons x rest ih =>
    rcases List.mem_cons.1 h with h | h
    · subst h
      exact ⟨_, List.mem_cons_self _ _⟩
    · obtain ⟨c, hc⟩ := ih (start + 1) h
      exact ⟨c, by simp [listAttachments, hc]⟩

theorem filter_listAttachments_eq_nil (start : Nat) (listContexts : List Context)
    (p : Context × Controller → Bool)
    (hp : ∀ a, a.2.ctor = .ListControllerFactoryCreate → p a = false) :
    (listAttachments start listContexts).filter p = [] := by
  rw [List.filter_eq_nil_iff]
  intro a ha
  simp [hp a (listAttachments_mem start listContexts a ha).1]

theorem attachments_phase_sorted (listContexts : List Context) :
    ((resetControllers listContexts).attachments).Pairwise
      (fun a c => a.2.ctor.phase ≤ c.2.ctor.phase) := by
  rw [attachments_eq, List.pairwise_append]
  have hF : ∀ a ∈ listAttachments 27 listContexts, a.2.ctor.phase = 2 := by
    intro a ha
    rw [(listAttachments_mem _ _ a ha).1]
    rfl
  have hB : ∀ a ∈ (resetControllers []).attachments, a.2.ctor.phase ≤ 2 := by decide
  refine ⟨by decide, ?_, ?_⟩
  · rw [List.pairwise_iff_forall_sublist]
    intro a c hs
    have ha := hF a (hs.subset (by simp))
    have hc := hF c (hs.subset (by simp))
    omega
  · intro a ha c hc
    rw [hF c hc]
    exact hB a ha

theorem index_lt_of_phase_lt (l : List (Context × Controller))
    (hl : l.Pairwise (fun a c => a.2.ctor.phase ≤ c.2.ctor.phase))
    (i j : Nat) (a c : Context × Controller)
    (hi : l[i]? = some a) (hj : l[j]? = some c) (h : a.2.ctor.phase < c.2.ctor.phase) :
    i < j := by
  rw [List.pairwise_iff_getElem] at hl
  obtain ⟨hi1, hi2⟩ := List.getElem?_eq_some_iff.1 hi
  obtain ⟨hj1, hj2⟩ := List.getElem?_eq_some_iff.1 hj
  by_contra hcon
  rcases Nat.lt_or_eq_of_le (Nat.le_of_not_lt hcon) with hlt | heq
  · have := hl j i hj1 hi1 hlt
    rw [hi2, hj2] at this
    omega
  · subst heq
    rw [hi] at hj
    cases hj
    omega

theorem filter_attachments (listContexts : List Context) (p : Context × Controller → Bool)
    (hp : ∀ a, a.2.ctor = .ListControllerFactoryCreate → p a = false) :
    (resetControllers listContexts).attachments.filter p
      = (resetControllers []).attachments.filter p := by
  rw [attachments_eq, List.filter_append, filter_listAttachments_eq_nil _ _ p hp,
    List.append_nil]

theorem filter_constructed (listContexts : List Context) (p : Controller → Bool)
    (hp : ∀ c, c.ctor = .ListControllerFactoryCreate → p c = false) :
    (resetControllers listContexts).constructed.filter p
      = (resetControllers []).constructed.filter p := by
  rw [constructed_eq, List.filter_append, List.filter_map,
    filter_listAttachments_eq_nil _ _ (p ∘ Prod.snd) (fun a ha => hp a.2 ha)]
  simp

/-! ## Claims about `branches.go` -/

/-- C1: the name part of the row is `S.Sprint(T)`, with `T` the display
name when it is non-empty and the name otherwise, and `S` the diff colour
when `diffed`, else chosen from the text of the name before its first `/`:
`feature` green, `bugfix` yellow, `hotfix` red, anything else the default
theme colour.  The name part is followed by the tracking suffix.  The
display name never selects the colour, and the named examples hold. -/
theorem C1_name_part_style {τ : Type} (st : Style τ) (m : BranchMethods) (b : Branch)
    (fullDescription diffed showGithub : Bool) :
    (getBranchDisplayStrings st m b fullDescription diffed showGithub).get?
        (if showGithub then 2 else 1)
      = some (st.Sprint
          (if diffed then st.DiffTerminalColor
           else if textBeforeFirstSlash b.Name = "feature" then st.FgGreen
           else if textBeforeFirstSlash b.Name = "bugfix" then st.FgYellow
           else if textBeforeFirstSlash b.Name = "hotfix" then st.FgRed
           else st.DefaultTextColor)
          (if b.DisplayName ≠ "" then b.DisplayName else b.Name)
          ++ trackingSuffix st m b)
    ∧ (getBranchDisplayStrings st m { b with Name := "feature/login" } fullDescription false
          showGithub).get? (if showGithub then 2 else 1)
        = some (st.Sprint st.FgGreen (displayText { b with Name := "feature/login" })
            ++ trackingSuffix st m { b with Name := "feature/login" })
    ∧ (getBranchDisplayStrings st m { b with Name := "hotfix/x" } fullDescription true
          showGithub).get? (if showGithub then 2 else 1)
        = some (st.Sprint st.DiffTerminalColor (displayText { b with Name := "hotfix/x" })
            ++ trackingSuffix st m { b with Name := "hotfix/x" })
    ∧ (getBranchDisplayStrings st m { b with Name := "hotfix/x" } fullDescription false
          showGithub).get? (if showGithub then 2 else 1)
        = some (st.Sprint st.FgRed (displayText { b with Name := "hotfix/x" })
            ++ trackingSuffix st m { b with Name := "hotfix/x" })
    ∧ (getBranchDisplayStrings st m { b with Name := "bugfix/y" } fullDescription false
          showGithub).get? (if showGithub then 2 else 1)
        = some (st.Sprint st.FgYellow (displayText { b with Name := "bugfix/y" })
            ++ trackingSuffix st m { b with Name := "bugfix/y" })
    ∧ (getBranchDisplayStrings st m { b with Name := "features/x" } fullDescription false
          showGithub).get? (if showGithub then 2 else 1)
        = some (st.Sprint st.DefaultTextColor (displayText { b with Name := "features/x" })
            ++ trackingSuffix st m { b with Name := "features/x" })
    ∧ (getBranchDisplayStrings st m { b with Name := "Feature/x" } fullDescription false
          showGithub).get? (if showGithub then 2 else 1)
        = some (st.Sprint st.DefaultTextColor (displayText { b with Name := "Feature/x" })
            ++ trackingSuffix st m { b with Name := "Feature/x" })
    ∧ (getBranchDisplayStrings st m { b with Name := "" } fullDescription false
          showGithub).get? (if showGithub then 2 else 1)
        = some (st.Sprint st.DefaultTextColor (displayText { b with Name := "" })
            ++ trackingSuffix st m { b with Name := "" })
    ∧ (getBranchDisplayStrings st m { b with Name := "main", DisplayName := "feature/y" }
          fullDescription false showGithub).get? (if showGithub then 2 else 1)
        = some (st.Sprint st.DefaultTextColor "feature/y"
            ++ trackingSuffix st m { b with Name := "main", DisplayName := "feature/y" }) := by
  have e1 : textBeforeFirstSlash "feature/login" = "feature" := by decide
  have e2 : textBeforeFirstSlash "hotfix/x" = "hotfix" := by decide
  have e3 : textBeforeFirstSlash "bugfix/y" = "bugfix" := by decide
  have e4 : textBeforeFirstSlash "features/x" = "features" := by decide
  have e5 : textBeforeFirstSlash "Feature/x" = "Feature" := by decide
  have e6 : textBeforeFirstSlash "" = "" := by decide
  have e7 : textBeforeFirstSlash "main" = "main" := by decide
  refine ⟨?_, ?_, ?_, ?_, ?_, ?_, ?_, ?_, ?_⟩
  · rw [nameColumn_at]
    unfold nameColumn segmentStyle displayText
    by_cases h : b.DisplayName = "" <;> simp [h]
  all_goals rw [nameColumn_at]
  all_goals simp [nameColumn, segmentStyle, displayText, e1, e2, e3, e4, e5, e6, e7]

/-- C2: `ColoredBranchStatus` is the text `↑Pushables↓Pullables`, which is
`BranchStatus`, rendered green when the branch matches its upstream,
otherwise red when it is not tracking a remote, otherwise yellow.  A branch
with counts 3 and 0 that matches its upstream gives `↑3↓0` in green; a
tracking branch that does not match gives yellow. -/
theorem C2_colored_branch_status {τ : Type} (st : Style τ) (m : BranchMethods) (b : Branch) :
    BranchStatus b = "↑" ++ b.Pushables ++ "↓" ++ b.Pullables
    ∧ ColoredBranchStatus st m b
        = st.Sprint
            (if m.MatchesUpstream b = true then st.FgGreen
             else if m.IsTrackingRemote b = false then st.FgRed
             else st.FgYellow)
            ("↑" ++ b.Pushables ++ "↓" ++ b.Pullables)
    ∧ (m.IsTrackingRemote { b with Pushables := "3", Pullables := "0" } = true →
        m.MatchesUpstream { b with Pushables := "3", Pullables := "0" } = true →
        ColoredBranchStatus st m { b with Pushables := "3", Pullables := "0" }
          = st.Sprint st.FgGreen "↑3↓0")
    ∧ (m.IsTrackingRemote b = true → m.MatchesUpstream b = false →
        ColoredBranchStatus st m b = st.Sprint st.FgYellow (BranchStatus b)) := by
  refine ⟨rfl, ?_, ?_, ?_⟩
  · unfold ColoredBranchStatus BranchStatus
    cases m.MatchesUpstream b <;> cases m.IsTrackingRemote b <;> simp
  · intro _ hm
    have e : ("↑" ++ "3" ++ "↓" ++ "0" : String) = "↑3↓0" := by decide
    simp [ColoredBranchStatus, BranchStatus, hm, e]
  · intro ht hm
    simp [ColoredBranchStatus, ht, hm]

/-- Witness for C2: the two conditional parts at concrete branches. -/
theorem C2_colored_branch_status_witness :
    ColoredBranchStatus ansiStyle syncedMethods
        { branchNamed "main" with Pushables := "3", Pullables := "0" }
      = ansiStyle.Sprint ansiStyle.FgGreen "↑3↓0"
    ∧ ColoredBranchStatus ansiStyle countMethods
        { branchNamed "main" with Pushables := "2", Pullables := "5" }
      = ansiStyle.Sprint ansiStyle.FgYellow "↑2↓5" :=
  ⟨(C2_colored_branch_status ansiStyle syncedMethods (branchNamed "main")).2.2.1 rfl rfl,
   (C2_colored_branch_status ansiStyle countMethods
      { branchNamed "main" with Pushables := "2", Pullables := "5" }).2.2.2
      (by decide) (by decide)⟩

/-- C3: the name column is the coloured name alone when the branch is not
tracking a remote, and the coloured name, one space and
`ColoredBranchStatus` when it is. -/
theorem C3_tracking_suffix {τ : Type} (st : Style τ) (m : BranchMethods) (b : Branch)
    (fullDescription diffed showGithub : Bool) :
    (getBranchDisplayStrings st m b fullDescription diffed showGithub).get?
        (if showGithub then 2 else 1)
      = some
          (if m.IsTrackingRemote b = true then
            st.Sprint (if diffed then st.DiffTerminalColor else GetBranchTextStyle st b.Name)
                (if b.DisplayName ≠ "" then b.DisplayName else b.Name)
              ++ " " ++ ColoredBranchStatus st m b
          else
            st.Sprint (if diffed then st.DiffTerminalColor else GetBranchTextStyle st b.Name)
              (if b.DisplayName ≠ "" then b.DisplayName else b.Name)) := by
  rw [nameColumn_at]
  unfold nameColumn trackingSuffix displayText
  rw [GetBranchTextStyle_eq_segmentStyle]
  by_cases h : b.DisplayName = "" <;> cases m.IsTrackingRemote b <;>
    simp [h, String.append_assoc]

/-- C4: with `showGithub` the row has one pull-request column, at index 1
and immediately before the name column: `#` and the decimal number, green
for state `OPEN`, red for `CLOSED`, magenta for any other state, and the
empty unstyled string when the branch has no PR.  Without `showGithub` the
row is the same row without that column, whatever the PR is. -/
theorem C4_pull_request_column {τ : Type} (st : Style τ) (m : BranchMethods) (b : Branch)
    (fullDescription diffed : Bool) (state : String) (number : Int) :
    (getBranchDisplayStrings st m b fullDescription diffed true).get? 1
      = some (match b.PR with
          | some pr =>
            st.Sprint
              (if pr.State = "OPEN" then st.FgGreen
               else if pr.State = "CLOSED" then st.FgRed
               else st.FgMagenta)
              ("#" ++ Itoa pr.Number)
          | none => "")
    ∧ (getBranchDisplayStrings st m b fullDescription diffed true).get? 2
        = some (nameColumn st m b diffed)
    ∧ (getBranchDisplayStrings st m b fullDescription diffed true).eraseIdx 1
        = getBranchDisplayStrings st m b fullDescription diffed false
    ∧ getBranchDisplayStrings st m b fullDescription diffed false
        = [recencyColumn st b, nameColumn st m b diffed]
          ++ (if fullDescription then [st.Sprint st.FgYellow b.UpstreamName] else [])
    ∧ (getBranchDisplayStrings st m { b with PR := some ⟨"CLOSED", 42⟩ } fullDescription diffed
          true).get? 1 = some (st.Sprint st.FgRed "#42")
    ∧ (getBranchDisplayStrings st m { b with PR := some ⟨"OPEN", number⟩ } fullDescription diffed
          true).get? 1 = some (st.Sprint st.FgGreen ("#" ++ Itoa number))
    ∧ (getBranchDisplayStrings st m { b with PR := some ⟨"MERGED", number⟩ } fullDescription
          diffed true).get? 1 = some (st.Sprint st.FgMagenta ("#" ++ Itoa number))
    ∧ (getBranchDisplayStrings st m { b with PR := some ⟨"", number⟩ } fullDescription diffed
          true).get? 1 = some (st.Sprint st.FgMagenta ("#" ++ Itoa number))
    ∧ (getBranchDisplayStrings st m { b with PR := none } fullDescription diffed true).get? 1
        = some ""
    ∧ (state ≠ "OPEN" → state ≠ "CLOSED" →
        (getBranchDisplayStrings st m { b with PR := some ⟨state, number⟩ } fullDescription
          diffed true).get? 1 = some (st.Sprint st.FgMagenta ("#" ++ Itoa number))) := by
  have e42 : ("#" ++ Itoa 42 : String) = "#42" := by decide
  refine ⟨?_, ?_, ?_, ?_, ?_, ?_, ?_, ?_, ?_, ?_⟩
  · rw [row_eq_columns]; cases h : b.PR <;> simp [prColumn, h]
  · exact nameColumn_at st m b fullDescription diffed true
  · rw [row_eq_columns, row_eq_columns]; simp
  · rw [row_eq_columns]; simp
  · rw [row_eq_columns]; simp [prColumn, e42]
  · rw [row_eq_columns]; simp [prColumn]
  · rw [row_eq_columns]; simp [prColumn]
  · rw [row_eq_columns]; simp [prColumn]
  · rw [row_eq_columns]; simp [prColumn]
  · intro h1 h2
    rw [row_eq_columns]; simp [prColumn, h1, h2]

/-- Witness for C4: a pull request in state `DRAFT` is shown in magenta. -/
theorem C4_pull_request_column_witness :
    (getBranchDisplayStrings ansiStyle countMethods
        { branchNamed "main" with PR := some ⟨"DRAFT", 7⟩ } false false true).get? 1
      = some (ansiStyle.Sprint ansiStyle.FgMagenta ("#" ++ Itoa 7)) :=
  (C4_pull_request_column ansiStyle countMethods (branchNamed "main") false false "DRAFT" 7).2.2.2.2.2.2.2.2.2
    (by decide) (by decide)

/-- C5, as the code has it: the first column is the recency rendered green
when the recency is exactly the three-character text of two spaces and an
asterisk, and rendered cyan for every other recency value. -/
theorem C5_recency_column {τ : Type} (st : Style τ) (m : BranchMethods) (b : Branch)
    (fullDescription diffed showGithub : Bool) :
    (getBranchDisplayStrings st m b fullDescription diffed showGithub).head?
      = some (st.Sprint (if b.Recency = "  *" then st.FgGreen else st.FgCyan) b.Recency)
    ∧ ("  *" : String).length = 3
    ∧ ("  *" : String).data = [' ', ' ', '*'] := by
  refine ⟨?_, by decide, by decide⟩
  rw [row_eq_columns]
  simp [recencyColumn]

/-- C5 as stated fails: no two-character text is a sentinel that decides
between green and cyan.  In the ANSI style the recency of two spaces and an
asterisk is rendered green although it differs from every two-character
text. -/
theorem C5_two_character_sentinel_counterexample :
    ¬ ∃ sentinel : String, sentinel.length = 2 ∧
      ∀ b : Branch,
        (getBranchDisplayStrings ansiStyle countMethods b false false false).head?
          = some (ansiStyle.Sprint
              (if b.Recency = sentinel then ansiStyle.FgGreen else ansiStyle.FgCyan) b.Recency) := by
  rintro ⟨sentinel, hlen, h⟩
  have hb := h { branchNamed "main" with Recency := "  *" }
  have hne : ¬ ("  *" : String) = sentinel := by
    intro e
    rw [← e] at hlen
    exact absurd hlen (by decide)
  rw [row_eq_columns] at hb
  simp only [if_neg hne] at hb
  revert hb
  decide

/-- C6: the row is the recency column, then the pull-request column exactly
when `showGithub`, then the name column, then the upstream name in yellow
exactly when `fullDescription`; it has `2 + showGithub + fullDescription`
columns, and all rows of one list result have that many columns. -/
theorem C6_row_layout {τ : Type} (st : Style τ) (m : BranchMethods) (b : Branch)
    (branches : List Branch) (diffName : String) (fullDescription diffed showGithub : Bool) :
    getBranchDisplayStrings st m b fullDescription diffed showGithub
      = [recencyColumn st b]
        ++ (if showGithub then [prColumn st b] else [])
        ++ [nameColumn st m b diffed]
        ++ (if fullDescription then [st.Sprint st.FgYellow b.UpstreamName] else [])
    ∧ (getBranchDisplayStrings st m b fullDescription diffed showGithub).length
        = 2 + (if showGithub then 1 else 0) + (if fullDescription then 1 else 0)
    ∧ (GetBranchListDisplayStrings st m branches fullDescription diffName showGithub).map
          List.length
        = List.replicate branches.length
            (2 + (if showGithub then 1 else 0) + (if fullDescription then 1 else 0)) := by
  have hlen : ∀ (b : Branch) (d : Bool),
      (getBranchDisplayStrings st m b fullDescription d showGithub).length
        = 2 + (if showGithub then 1 else 0) + (if fullDescription then 1 else 0) := by
    intro b d
    rw [row_eq_columns]
    cases showGithub <;> cases fullDescription <;> simp
  refine ⟨row_eq_columns st m b fullDescription diffed showGithub, hlen b diffed, ?_⟩
  rw [GetBranchListDisplayStrings_eq_map, List.map_map]
  apply List.ext_getElem
  · simp
  · intro i h1 h2
    simp [hlen]

/-- C7: the list result has one row per branch, in input order: it is the
map of `getBranchDisplayStrings` over the input, with `diffed` true exactly
when the name of the branch equals `diffName`. -/
theorem C7_one_row_per_branch {τ : Type} (st : Style τ) (m : BranchMethods)
    (branches : List Branch) (fullDescription : Bool) (diffName : String) (showGithub : Bool) :
    GetBranchListDisplayStrings st m branches fullDescription diffName showGithub
      = branches.map (fun b =>
          getBranchDisplayStrings st m b fullDescription (decide (b.Name = diffName)) showGithub)
    ∧ (GetBranchListDisplayStrings st m branches fullDescription diffName showGithub).length
        = branches.length
    ∧ GetBranchListDisplayStrings st m [] fullDescription diffName showGithub = []
    ∧ GetBranchListDisplayStrings st m
          [{ branchNamed "main" with DisplayName := "dev" },
           { branchNamed "dev" with DisplayName := "main" }] fullDescription "dev" showGithub
        = [getBranchDisplayStrings st m { branchNamed "main" with DisplayName := "dev" }
            fullDescription false showGithub,
           getBranchDisplayStrings st m { branchNamed "dev" with DisplayName := "main" }
            fullDescription true showGithub] := by
  refine ⟨GetBranchListDisplayStrings_eq_map _ _ _ _ _ _, ?_, ?_, ?_⟩
  · rw [GetBranchListDisplayStrings_eq_map]; simp
  · rfl
  · rw [GetBranchListDisplayStrings_eq_map]
    simp [branchNamed]

/-! ## Claims about `resetControllers` -/

/-- C8: in the attachments of `resetControllers`, the switch-to-sub-commits
controller goes to Branches, RemoteBranches, Tags and ReflogCommits only,
the switch-to-diff-files controller to LocalCommits, SubCommits and Stash
only, the basic-commits controller to LocalCommits, ReflogCommits and
SubCommits only; LocalCommits, SubCommits and ReflogCommits each receive one
attachment from each of their two categories. -/
theorem C8_generic_attachment_targets (listContexts : List Context) :
    ((resetControllers listContexts).attachments.filter
        (fun a => decide (a.2.ctor = .NewSwitchToSubCommitsController))).map Prod.fst
      = [.Branches, .RemoteBranches, .Tags, .ReflogCommits]
    ∧ ((resetControllers listContexts).attachments.filter
        (fun a => decide (a.2.ctor = .NewSwitchToDiffFilesController))).map Prod.fst
      = [.LocalCommits, .SubCommits, .Stash]
    ∧ ((resetControllers listContexts).attachments.filter
        (fun a => decide (a.2.ctor = .NewBasicCommitsController))).map Prod.fst
      = [.LocalCommits, .ReflogCommits, .SubCommits]
    ∧ ((resetControllers listContexts).attachments.filter
        (fun a => decide (a.1 = .LocalCommits) && a.2.ctor.isGeneric)).map (fun a => a.2.ctor)
      = [.NewSwitchToDiffFilesController, .NewBasicCommitsController]
    ∧ ((resetControllers listContexts).attachments.filter
        (fun a => decide (a.1 = .SubCommits) && a.2.ctor.isGeneric)).map (fun a => a.2.ctor)
      = [.NewSwitchToDiffFilesController, .NewBasicCommitsController]
    ∧ ((resetControllers listContexts).attachments.filter
        (fun a => decide (a.1 = .ReflogCommits) && a.2.ctor.isGeneric)).map (fun a => a.2.ctor)
      = [.NewSwitchToSubCommitsController, .NewBasicCommitsController] := by
  refine ⟨?_, ?_, ?_, ?_, ?_, ?_⟩
  all_goals
    rw [filter_attachments listContexts _ (fun a ha => by simp [ha, Constructor.isGeneric])]
    decide

/-- C9: in the attachments of `resetControllers`, every generic attachment
comes before every domain attachment, every attachment of a list controller
of the factory comes after every other attachment, and for every list
context the last controller attached to it is the list controller that the
factory created for it. -/
theorem C9_attachment_order (listContexts : List Context) :
    (∀ (i j : Nat) (a c : Context × Controller),
        (resetControllers listContexts).attachments[i]? = some a →
        (resetControllers listContexts).attachments[j]? = some c →
        a.2.ctor.isGeneric = true → c.2.ctor.isDomain = true → i < j)
    ∧ (∀ (i j : Nat) (a c : Context × Controller),
        (resetControllers listContexts).attachments[i]? = some a →
        (resetControllers listContexts).attachments[j]? = some c →
        a.2.ctor.isFactory = false → c.2.ctor.isFactory = true → i < j)
    ∧ (∀ context ∈ listContexts, ∃ c : Controller,
        ((resetControllers listContexts).attachments.filter
            (fun a => decide (a.1 = context))).getLast? = some (context, c)
        ∧ c.ctor = .ListControllerFactoryCreate ∧ c.context = some context) := by
  refine ⟨?_, ?_, ?_⟩
  · intro i j a c hi hj ha hc
    apply index_lt_of_phase_lt _ (attachments_phase_sorted listContexts) i j a c hi hj
    generalize a.2.ctor = ka at ha
    generalize c.2.ctor = kc at hc
    revert ha hc
    cases ka <;> cases kc <;> decide
  · intro i j a c hi hj ha hc
    apply index_lt_of_phase_lt _ (attachments_phase_sorted listContexts) i j a c hi hj
    generalize a.2.ctor = ka at ha
    generalize c.2.ctor = kc at hc
    revert ha hc
    cases ka <;> cases kc <;> decide
  · intro context hmem
    obtain ⟨c0, hc0⟩ := listAttachments_exists 27 listContexts context hmem
    have hne : (listAttachments 27 listContexts).filter (fun a => decide (a.1 = context)) ≠ [] := by
      intro hnil
      rw [List.filter_eq_nil_iff] at hnil
      exact hnil _ hc0 (by simp)
    obtain ⟨x, hx⟩ := Option.isSome_iff_exists.1
      (by simpa using hne :
        ((listAttachments 27 listContexts).filter
          (fun a => decide (a.1 = context))).getLast?.isSome = true)
    have hxmem := List.mem_of_getLast?_eq_some hx
    rw [List.mem_filter] at hxmem
    have hx1 : x.1 = context := by simpa using hxmem.2
    have hx2 := listAttachments_mem _ _ x hxmem.1
    refine ⟨x.2, ?_, hx2.1, ?_⟩
    · rw [attachments_eq, List.filter_append, List.getLast?_append, hx]
      simp [← hx1]
    · rw [hx2.2.1, hx1]

/-- Witness for C9 on `sampleListContexts`: the first
generic attachment is before the first domain attachment, the last domain
attachment is before the first list controller, and the last controller
attached to Branches is its list controller. -/
theorem C9_attachment_order_witness :
    0 < 10 ∧ 28 < 29
    ∧ ∃ c : Controller,
        ((resetControllers sampleListContexts).attachments.filter
            (fun a => decide (a.1 = Context.Branches))).getLast? = some (Context.Branches, c)
        ∧ c.ctor = .ListControllerFactoryCreate ∧ c.context = some Context.Branches :=
  ⟨(C9_attachment_order sampleListContexts).1 0 10
      (.Branches, ⟨.NewSwitchToSubCommitsController, some .Branches, 17⟩)
      (.Files, ⟨.NewFilesController, none, 8⟩) (by decide) (by decide) (by decide) (by decide),
   (C9_attachment_order sampleListContexts).2.1 28 29
      (.Global, ⟨.NewGlobalController, none, 11⟩)
      (.Menu, ⟨.ListControllerFactoryCreate, some .Menu, 27⟩)
      (by decide) (by decide) (by decide) (by decide),
   (C9_attachment_order sampleListContexts).2.2 .Branches (by decide)⟩

/-- C10, as the code has it: for each capability category one generic
controller instance is built for each context of the category, with that
context as argument, and each instance is attached to the context it was
built for; the instances are pairwise distinct. -/
theorem C10_one_instance_per_context (listContexts : List Context) :
    ((resetControllers listContexts).constructed.filter
        (fun c => decide (c.ctor = .NewSwitchToSubCommitsController))).map Controller.context
      = [some .Branches, some .RemoteBranches, some .Tags, some .ReflogCommits]
    ∧ ((resetControllers listContexts).constructed.filter
        (fun c => decide (c.ctor = .NewSwitchToDiffFilesController))).map Controller.context
      = [some .LocalCommits, some .SubCommits, some .Stash]
    ∧ ((resetControllers listContexts).constructed.filter
        (fun c => decide (c.ctor = .NewBasicCommitsController))).map Controller.context
      = [some .LocalCommits, some .ReflogCommits, some .SubCommits]
    ∧ ((resetControllers listContexts).attachments.filter
        (fun a => a.2.ctor.isGeneric)).map Prod.snd
      = (resetControllers listContexts).constructed.filter (fun c => c.ctor.isGeneric)
    ∧ ((resetControllers listContexts).attachments.filter
        (fun a => a.2.ctor.isGeneric)).map (fun a => a.2.context)
      = ((resetControllers listContexts).attachments.filter
        (fun a => a.2.ctor.isGeneric)).map (fun a => some a.1)
    ∧ ((resetControllers listContexts).constructed.filter
        (fun c => c.ctor.isGeneric)).Nodup := by
  refine ⟨?_, ?_, ?_, ?_, ?_, ?_⟩
  · rw [filter_constructed listContexts _ (fun c hc => by simp [hc])]
    decide
  · rw [filter_constructed listContexts _ (fun c hc => by simp [hc])]
    decide
  · rw [filter_constructed listContexts _ (fun c hc => by simp [hc])]
    decide
  · rw [filter_constructed listContexts _ (fun c hc => by simp [hc, Constructor.isGeneric]),
      filter_attachments listContexts _ (fun a ha => by simp [ha, Constructor.isGeneric])]
    decide
  · rw [filter_attachments listContexts _ (fun a ha => by simp [ha, Constructor.isGeneric])]
    decide
  · rw [filter_constructed listContexts _ (fun c hc => by simp [hc, Constructor.isGeneric])]
    decide

/-- C10 as stated fails: on `sampleListContexts` the method
`resetControllers` builds four switch-to-sub-commits controllers, not one,
and no single instance is the one attached to every context of the
category, since the instance attached to Branches differs from the one
attached to Tags. -/
theorem C10_single_instance_counterexample :
    ((resetControllers sampleListContexts).constructed.filter
        (fun x => decide (x.ctor = .NewSwitchToSubCommitsController))).length = 4
    ∧ ¬ ∃ c : Controller,
        ∀ a ∈ (resetControllers sampleListContexts).attachments,
          a.2.ctor = .NewSwitchToSubCommitsController → a.2 = c := by
  refine ⟨by decide, ?_⟩
  rintro ⟨c, h⟩
  have h1 := h (.Branches, ⟨.NewSwitchToSubCommitsController, some .Branches, 17⟩)
    (by decide) rfl
  have h2 := h (.Tags, ⟨.NewSwitchToSubCommitsController, some .Tags, 19⟩) (by decide) rfl
  rw [← h1] at h2
  exact absurd h2 (by decide)

end Lazygit
